import Mathlib

/-!
Verification development for the LangSwarm-Memory repository.

The Python sources under `src/memswarm` and `src/langswarm/memory` are
shallowly embedded: Python `dict`s become insertion-ordered association
lists, Python values that matter to the claims become the inductive `PyV`,
fallible Python code returns `Except PyErr`, and Python's stable `sorted`
becomes the insertion sort `sortOn` below (with `reverse=True`, `sorted`
still keeps elements with equal keys in their original order, which is
`sortOnDesc`).  Scores (Python floats in the source) are embedded as
rationals; every score appearing in the spec's examples is exactly
representable.  The file holds all definitions first, then all theorems.
-/

/-! ## Definitions -/

/-- Python values relevant to the claims: `None`, strings, ints,
numbers (floats embedded as rationals) and booleans. -/
inductive PyV where
  | pnone : PyV
  | str : String → PyV
  | int : Int → PyV
  | num : ℚ → PyV
  | bool : Bool → PyV
deriving DecidableEq, Repr

/-- Python truthiness for the values of `PyV`
(`None`, `""`, `0`, `0.0` and `False` are falsy). -/
def PyV.truthy : PyV → Bool
  | .pnone => false
  | .str s => s ≠ ""
  | .int n => n ≠ 0
  | .num q => q ≠ 0
  | .bool b => b

/-- `str(v)` as used in f-string interpolation (`f"{context_id}:..."`):
`None` prints as `"None"`, strings print without quotes. -/
def PyV.toStr : PyV → String
  | .pnone => "None"
  | .str s => s
  | .int n => toString n
  | .num q => toString q
  | .bool b => if b then "True" else "False"

/-- Exceptions raised by the embedded Python code. -/
inductive PyErr where
  | attributeError : PyErr
  | keyError : PyErr
  | typeError : PyErr
  | notImplementedError : PyErr
deriving DecidableEq, Repr

/-- Python `dict` lookup `d.get(k)`: first match in insertion order
(Python dicts have unique keys, so the first match is the only one). -/
def alookup {β : Type _} : List (String × β) → String → Option β
  | [], _ => none
  | (k, v) :: rest, key => if k = key then some v else alookup rest key

/-- Python `dict` update `d[k] = v`: replaces the value in place when the
key is present and appends otherwise. -/
def dinsert {β : Type _} : List (String × β) → String → β → List (String × β)
  | [], key, val => [(key, val)]
  | (k, v) :: rest, key, val =>
      if k = key then (key, val) :: rest else (k, v) :: dinsert rest key val

/-- One step of stable insertion sort by a key function: `x` is placed
before the first element whose key is not smaller than `key x`, so an
element inserted later (= earlier in the input list) lands before the
elements of equal key already present. -/
def insertOn {α κ : Type _} [LinearOrder κ] (key : α → κ) (x : α) : List α → List α
  | [] => [x]
  | y :: ys => if key y < key x then y :: insertOn key x ys else x :: y :: ys

/-- Stable ascending sort by a key function, the embedding of Python's
`sorted(l, key=key)`: a stable sort is determined by being a permutation,
sorted, and preserving the order inside each equal-key class, and
`sortOn` is proved to satisfy all three below. -/
def sortOn {α κ : Type _} [LinearOrder κ] (key : α → κ) : List α → List α
  | [] => []
  | x :: xs => insertOn key x (sortOn key xs)

/-- One step of stable descending insertion sort: `x` is placed before
the first element whose key is not larger than `key x`. -/
def insertOnDesc {α κ : Type _} [LinearOrder κ] (key : α → κ) (x : α) :
    List α → List α
  | [] => [x]
  | y :: ys => if key x < key y then y :: insertOnDesc key x ys else x :: y :: ys

/-- Stable descending sort by a key function, the embedding of Python's
`sorted(l, key=key, reverse=True)` (also stable: equal keys keep their
original order). -/
def sortOnDesc {α κ : Type _} [LinearOrder κ] (key : α → κ) : List α → List α
  | [] => []
  | x :: xs => insertOnDesc key x (sortOnDesc key xs)

/-- The `metadata` argument of `InMemorySharedMemory.write` and
`write_scope` as a Python caller can pass it: `None` (the default), a
string (the shape produced by calling `write(key, value)` through the
base contract, where the contract's `value` lands in `metadata`), or a
proper dict. -/
inductive MetaArg where
  | pynone : MetaArg
  | pystr : String → MetaArg
  | pydict : List (String × PyV) → MetaArg

/-- Python truthiness of a `metadata` argument (`None`, `""` and `{}`
are falsy). -/
def MetaArg.truthy : MetaArg → Bool
  | .pynone => false
  | .pystr s => s ≠ ""
  | .pydict d => d ≠ []

/-- `metadata = metadata or {}` from the source. -/
def MetaArg.orEmpty (m : MetaArg) : MetaArg :=
  if m.truthy then m else .pydict []

/-- `d.get(k)`: `None` when the key is absent. -/
def pyGet (d : List (String × PyV)) (k : String) : PyV :=
  (alookup d k).getD .pnone

/-- `d.get(k, dflt)`: the stored value when the key is present (even a
stored `None`), else `dflt`. -/
def pyGetD (d : List (String × PyV)) (k : String) (dflt : PyV) : PyV :=
  (alookup d k).getD dflt

/-! ### §4.1/§4.3 In-memory adapter — `src/memswarm/in_memory.py` -/

namespace InMemorySharedMemory

/-- A stored entry: `{"value": value, "metadata": ...}`. -/
structure Entry where
  value : PyV
  metadata : List (String × PyV)
deriving DecidableEq, Repr

/-- `self.memory`, a Python dict from synthesized keys to entries. -/
abbrev Memory := List (String × Entry)

/-- `InMemorySharedMemory._get_default_metadata`: the fixed six fields,
with `timestamp` defaulted to the current write time `now` when the
caller did not supply one. -/
def _get_default_metadata (metadata : List (String × PyV)) (now : String) :
    List (String × PyV) :=
  [("agent", pyGet metadata "agent"),
   ("timestamp", pyGetD metadata "timestamp" (.str now)),
   ("llm", pyGet metadata "llm"),
   ("action", pyGet metadata "action"),
   ("confidence", pyGet metadata "confidence"),
   ("query", pyGet metadata "query")]

/-- `InMemorySharedMemory.write(self, value, metadata=None, context_id=None)`:
note the parameters — there is no `key` parameter.  The storage key is
synthesized as `f"{context_id}:{timestamp}"` (`now` is the write-time
timestamp string).  Calling `.get` on a non-dict `metadata` (a truthy
string) raises `AttributeError`. -/
def write (mem : Memory) (value : PyV) (metadata : MetaArg) (context_id : PyV)
    (now : String) : Except PyErr Memory :=
  match metadata.orEmpty with
  | .pydict d => .ok (dinsert mem (context_id.toStr ++ ":" ++ now)
      ⟨value, _get_default_metadata d now⟩)
  | _ => .error .attributeError

/-- `InMemorySharedMemory.write_scope`: synthesized key
`f"{context_id}:{timestamp}"`; entry metadata is the literal
`{"agent_id": ..., "group_id": ..., "timestamp": timestamp}` with the
caller's metadata spread over it (`**metadata`, caller fields win). -/
def write_scope (mem : Memory) (value : PyV) (metadata : MetaArg) (context_id : PyV)
    (now : String) : Except PyErr Memory :=
  match metadata.orEmpty with
  | .pydict d =>
      .ok (dinsert mem (context_id.toStr ++ ":" ++ now)
        ⟨value, d.foldl (fun acc kv => dinsert acc kv.1 kv.2)
          [("agent_id", pyGet d "agent_id"), ("group_id", pyGet d "group_id"),
           ("timestamp", PyV.str now)]⟩)
  | _ => .error .attributeError

/-- `InMemorySharedMemory.read_context`: sort all `(key, entry)` items by
key (Python's `sorted(self.memory.items())` compares the unique keys) and
keep those whose key starts with `f"{context_id}:"`. -/
def read_context (mem : Memory) (context_id : PyV) : Memory :=
  (sortOn (fun p => p.1) mem).filter
    (fun p => (context_id.toStr ++ ":").data.isPrefixOf p.1.data)

/-- `InMemorySharedMemory.similarity_search`: when the optional
similarity dependencies are unavailable (`sims = none`, i.e. the
`sklearn`/`sentence_transformers` imports failed) the method returns the
empty list; otherwise it ranks the stored keys by the externally
computed similarity scores `sims` descending and keeps `top_k`. -/
def similarity_search (sims : Option (List (String × ℚ))) (_query : String)
    (top_k : Nat) : Except PyErr (List (String × ℚ)) :=
  match sims with
  | some s => .ok ((sortOnDesc (fun p => p.2) s).take top_k)
  | none => .ok []

end InMemorySharedMemory

/-! ### GCS adapter without metadata — `src/memswarm/gcs.py`

This earlier GCS adapter uploads the raw value string
(`blob.upload_from_string(value)`): its `write(key, value)` takes no
metadata and attaches none.  The bucket is embedded as blob-name ->
uploaded-text. -/

namespace GCSSharedMemoryPlain

abbrev Bucket := List (String × String)

/-- `GCSSharedMemory.write` of `gcs.py`: store the bare value under
`f"{self.prefix}{key}"`. -/
def write (bucket : Bucket) (pfx key value : String) : Bucket :=
  dinsert bucket (pfx ++ key) value

/-- `GCSSharedMemory.read` of `gcs.py` for a specific key: the blob's
text or `None`. -/
def read (bucket : Bucket) (pfx key : String) : Option String :=
  alookup bucket (pfx ++ key)

/-- `GCSSharedMemory.similarity_search` of `gcs.py`: always raises
`NotImplementedError`. -/
def similarity_search (_query : String) (_top_k : Nat) :
    Except PyErr (List (String × ℚ)) :=
  .error .notImplementedError

end GCSSharedMemoryPlain

/-! ### §4.5 Multi-Backend Index / Federation —
`src/langswarm/memory/centralized_index.py`, class `HybridCentralizedIndex` -/

namespace HybridCentralizedIndex

/-- A normalized per-backend query result, a Python dict with the fields
the merge phase reads: `result.get("id")`, `result.get("text")`,
`result.get("score", 0)`.  `none` stands for an absent key (Python's
`.get` returns `None` for both an absent key and a stored `None`, and
the merge phase treats them alike). -/
structure QRes where
  id : Option PyV
  text : Option PyV
  score : Option ℚ
deriving DecidableEq, Repr

/-- `identifier = result.get("id") or result.get("text")`: Python `or`
returns the right operand whenever the left is falsy (`None`, `0`, `""`,
...), so a falsy `id` also falls back to `text`. -/
def ident (r : QRes) : Option PyV :=
  match r.id with
  | some v => if v.truthy then some v else r.text
  | none => r.text

/-- Identifier selection as claim C2 words it: the `id` field whenever
it is present, falling back to `text` only when `id` is absent.  This is
the claim-side definition used to compare against the code's `ident`. -/
def identClaim (r : QRes) : Option PyV :=
  match r.id with
  | some v => some v
  | none => r.text

/-- The sort key `x.get("score", 0)`. -/
def scoreKey (r : QRes) : ℚ := r.score.getD 0

/-- The dedup loop of `_deduplicate_and_sort_results`: a `seen` set of
identifiers, keeping a result only when its identifier is new. -/
def dedupLoop : List QRes → List (Option PyV) → List QRes
  | [], _ => []
  | r :: rs, seen =>
      if ident r ∈ seen then dedupLoop rs seen
      else r :: dedupLoop rs (ident r :: seen)

/-- The same loop with the claim's identifier selection, for the
comparison in the C2 counterexample. -/
def dedupClaimLoop : List QRes → List (Option PyV) → List QRes
  | [], _ => []
  | r :: rs, seen =>
      if identClaim r ∈ seen then dedupClaimLoop rs seen
      else r :: dedupClaimLoop rs (identClaim r :: seen)

/-- `HybridCentralizedIndex._deduplicate_and_sort_results`: dedup by
identifier, sort by `score` descending (missing score is `0`, Python's
`sorted` is stable), truncate to `top_k`. -/
def _deduplicate_and_sort_results (results : List QRes) (top_k : Nat) : List QRes :=
  (sortOnDesc scoreKey (dedupLoop results [])).take top_k

/-- A backend handle held in `self.backends` after successful
initialization (the external client object itself is opaque). -/
inductive Backend where
  | faiss : Backend
  | elasticsearch : Backend
  | pinecone : Backend
deriving DecidableEq, Repr

/-- Construction-time and query-time errors raised by
`HybridCentralizedIndex` (`ImportError` from `_check_dependencies`,
`ValueError` from `_validate_backend_config` naming the missing field,
`ValueError` from `query`/`add_to_index` naming an unknown backend). -/
inductive FedErr where
  | importError : String → String → FedErr
  | missingField : String → String → FedErr
  | unknownBackend : String → FedErr
deriving DecidableEq, Repr

/-- `self.config.get(backend, {})`. -/
def cfgGet (config : List (String × List (String × PyV))) (name : String) :
    List (String × PyV) :=
  (alookup config name).getD []

/-- `self.config.get(backend, {}).get("enabled", False)` used as an
`if` condition (Python truthiness). -/
def enabled (config : List (String × List (String × PyV))) (name : String) : Bool :=
  (pyGetD (cfgGet config name) "enabled" (.bool false)).truthy

/-- `field in config and config[field]` truthiness check of
`_validate_backend_config`. -/
def fieldOk (c : List (String × PyV)) (f : String) : Bool :=
  match alookup c f with
  | some v => v.truthy
  | none => false

/-- `HybridCentralizedIndex._validate_backend_config`: raise a
`ValueError` naming the first missing-or-falsy required field. -/
def _validate_backend_config (c : List (String × PyV)) (name : String) :
    List String → Except FedErr Unit
  | [] => .ok ()
  | f :: fs =>
      if fieldOk c f then _validate_backend_config c name fs
      else .error (.missingField f name)

/-- `HybridCentralizedIndex._check_dependencies`: iterate the
`dependency_map` literal in order and raise `ImportError` for the first
enabled backend whose library is not installed (`env` tells which
libraries import successfully). -/
def _check_dependencies (env : String → Bool) (config : List (String × List (String × PyV))) :
    Except FedErr Unit :=
  if enabled config "faiss" && !env "faiss" then
    .error (.importError "faiss" "faiss")
  else if enabled config "elasticsearch" && !env "elasticsearch" then
    .error (.importError "elasticsearch" "elasticsearch")
  else if enabled config "pinecone" && !env "pinecone-client" then
    .error (.importError "pinecone-client" "pinecone")
  else .ok ()

/-- One backend block of `_initialize_backends`: when enabled, validate
the required fields (an error aborts the whole constructor) and add the
backend to the registry. -/
def initStep (config : List (String × List (String × PyV)))
    (reg : List (String × Backend)) (name : String) (required : List String)
    (b : Backend) : Except FedErr (List (String × Backend)) :=
  if enabled config name then
    match _validate_backend_config (cfgGet config name) name required with
    | .ok _ => .ok (dinsert reg name b)
    | .error e => .error e
  else .ok reg

/-- `HybridCentralizedIndex._initialize_backends`: faiss, then
elasticsearch, then pinecone; the first validation error propagates out
of the constructor. -/
def _initialize_backends (config : List (String × List (String × PyV))) :
    Except FedErr (List (String × Backend)) :=
  match initStep config [] "faiss" ["dimension"] .faiss with
  | .error e => .error e
  | .ok reg =>
      match initStep config reg "elasticsearch" ["host"] .elasticsearch with
      | .error e => .error e
      | .ok reg =>
          match initStep config reg "pinecone" ["api_key", "environment", "index_name"]
              .pinecone with
          | .error e => .error e
          | .ok reg => .ok reg

/-- `HybridCentralizedIndex.__init__`: check dependencies, then
initialize the backends; any error escapes the constructor, so no
object (and no usable registry) exists on failure. -/
def init (env : String → Bool) (config : List (String × List (String × PyV))) :
    Except FedErr (List (String × Backend)) :=
  match _check_dependencies env config with
  | .error e => .error e
  | .ok _ => _initialize_backends config

/-- The fan-out of `query` with no backend name: `results.extend(...)`
over `self.backends.items()` in registry order. -/
def fanout (registry : List (String × Backend)) (fetch : String → List QRes) :
    List QRes :=
  (registry.map (fun p => fetch p.1)).flatten

/-- `HybridCentralizedIndex.query`: a named backend must be registered
(else `ValueError`); with no name the query fans out to every
registered backend in registry order, concatenates, and merges.
`fetch` stands for the external `_query_backend` call returning
normalized results per backend. -/
def query (registry : List (String × Backend)) (fetch : String → List QRes)
    (backend : Option String) (top_k : Nat) : Except FedErr (List QRes) :=
  match backend with
  | some name =>
      if (alookup registry name).isSome then
        .ok (_deduplicate_and_sort_results (fetch name) top_k)
      else .error (.unknownBackend name)
  | none =>
      .ok (_deduplicate_and_sort_results (fanout registry fetch) top_k)

end HybridCentralizedIndex

/-! ### §4.4 Hybrid Memory — `src/memswarm/hybrid_memory.py`

`HybridSharedMemory` composes two adapters satisfying the base contract
of `src/memswarm/base.py` (`read(key)` returns the stored value or
`None`; `write(key, value)` upserts).  Contract-conforming adapters are
embedded as string-keyed stores; `HybridSharedMemory.read` is translated
line by line: try the cache, fall back to the backend, and on a durable
hit populate the cache (`self.cache.write(key, value)`) before
returning. -/

namespace HybridSharedMemory

/-- A contract-conforming key-value adapter state. -/
abbrev Store := List (String × String)

/-- `HybridSharedMemory.read`: returns the value found (or `none`)
together with the cache state after the call (the write-back on a
durable-backend hit is the only cache mutation). -/
def read (cache backend : Store) (key : String) : Option String × Store :=
  match alookup cache key with
  | some v => (some v, cache)
  | none =>
      match alookup backend key with
      | some v => (some v, dinsert cache key v)
      | none => (none, cache)

end HybridSharedMemory

/-! ### §4.6 Combined Reranking Workflow —
`src/langswarm/memory/rerankers/workflows.py` -/

namespace CombinedRerankingWorkflow

/-- A reranked document as the workflow reads it: `doc["text"]` and
`doc["score"]` (scores are rationals, the exact embedding of the
source's floats for the spec's values). -/
structure SDoc where
  text : String
  score : ℚ
deriving DecidableEq, Repr

/-- The default weights of `__init__`: `[1.0 / len(rerankers)] *
len(rerankers)` (for `n = 0` Python would raise `ZeroDivisionError`, and
the empty list here never exposes the bogus quotient). -/
def defaultWeights (n : Nat) : List ℚ :=
  List.replicate n (1 / n)

/-- `scores = {doc["text"]: 0.0 for doc in documents}` (a dict, so a
duplicated text collapses onto one slot). -/
def initScores (documents : List String) : List (String × ℚ) :=
  documents.foldl (fun m t => dinsert m t 0) []

/-- `scores[doc["text"]] += doc["score"] * weight`: `KeyError` when the
reranker returned a text that is not a key of `scores`. -/
def addScore (m : List (String × ℚ)) (t : String) (delta : ℚ) :
    Except PyErr (List (String × ℚ)) :=
  match alookup m t with
  | some s => .ok (dinsert m t (s + delta))
  | none => .error .keyError

/-- The inner loop over one reranker's output:
`for doc in ranked_docs: scores[doc["text"]] += doc["score"] * weight`. -/
def applyRanked : List (String × ℚ) → List SDoc → ℚ →
    Except PyErr (List (String × ℚ))
  | m, [], _ => .ok m
  | m, d :: ds, w =>
      match addScore m d.text (d.score * w) with
      | .error e => .error e
      | .ok m2 => applyRanked m2 ds w

/-- The outer loop `for reranker, weight in zip(self.rerankers,
self.weights)`, with each `reranker.rerank(query, documents)` call
abstracted into its output list. -/
def runLoop : List (String × ℚ) → List (List SDoc × ℚ) →
    Except PyErr (List (String × ℚ))
  | m, [] => .ok m
  | m, rw_ :: rest =>
      match applyRanked m rw_.1 rw_.2 with
      | .error e => .error e
      | .ok m2 => runLoop m2 rest

/-- `CombinedRerankingWorkflow.run`: accumulate the weighted scores per
text over the zipped (outputs, weights) pairs (`zip` truncates exactly
like Python's), then sort the `(text, score)` items by descending
combined score with Python's stable `sorted`. -/
def run (documents : List String) (rankedOutputs : List (List SDoc))
    (weights : List ℚ) : Except PyErr (List SDoc) :=
  match runLoop (initScores documents) (rankedOutputs.zip weights) with
  | .error e => .error e
  | .ok m => .ok (sortOnDesc (fun d => d.score) (m.map (fun p => ⟨p.1, p.2⟩)))

/-- The total score one reranker output contributes to text `t`
(the sum over its entries with that text: one entry contributes its
score, an absent text contributes `0`). -/
def sumScores (ranked : List SDoc) (t : String) : ℚ :=
  ((ranked.filter (fun d => decide (d.text = t))).map (fun d => d.score)).sum

/-- The claim's combined score `Σ weight_i * score_i` over the
(zipped) reranker outputs. -/
def combinedScore (pairs : List (List SDoc × ℚ)) (t : String) : ℚ :=
  (pairs.map (fun rw => rw.2 * sumScores rw.1 t)).sum

/-- `ts.map (fun t => (t, f t))`: the shape of the scores dict, keys in
input order. -/
def mkMap (ts : List String) (f : String → ℚ) : List (String × ℚ) :=
  ts.map (fun t => (t, f t))

end CombinedRerankingWorkflow

/-! ### §4.6 Temporal Retriever —
`src/langswarm/memory/rerankers/temporal_federated.py` -/

namespace TemporalRetriever

/-- A retrieved document: the dict of its fields. -/
structure TDoc where
  fields : List (String × PyV)
deriving DecidableEq, Repr

/-- `doc[field]`: `KeyError` when the field is absent. -/
def getItem (d : TDoc) (f : String) : Except PyErr PyV :=
  match alookup d.fields f with
  | some v => .ok v
  | none => .error .keyError

/-- Python truthiness of an optional string bound (`None` and `""` are
falsy, so they count as no bound). -/
def optTruthy : Option String → Bool
  | none => false
  | some s => s ≠ ""

/-- `timestamp < start_time` in Python: string-to-string comparison, a
`TypeError` when the timestamp value is not a string. -/
def cmpLtStr (ts : PyV) (s : String) : Except PyErr Bool :=
  match ts with
  | .str t => .ok (decide (t < s))
  | _ => .error .typeError

/-- `timestamp > end_time` in Python. -/
def cmpGtStr (ts : PyV) (e : String) : Except PyErr Bool :=
  match ts with
  | .str t => .ok (decide (e < t))
  | _ => .error .typeError

/-- `TemporalRetriever._is_within_range`: strict `<`/`>` exclusion
against truthy bounds, so boundary values are included. -/
def _is_within_range (ts : PyV) (s e : Option String) : Except PyErr Bool :=
  match (if optTruthy s then cmpLtStr ts (s.getD "") else .ok false) with
  | .error err => .error err
  | .ok true => .ok false
  | .ok false =>
      match (if optTruthy e then cmpGtStr ts (e.getD "") else .ok false) with
      | .error err => .error err
      | .ok true => .ok false
      | .ok false => .ok true

/-- The inclusive-range test of the spec for a string timestamp against
the truthy bounds. -/
def inRangeB (t : String) (s e : Option String) : Bool :=
  (!optTruthy s || decide (s.getD "" ≤ t)) && (!optTruthy e || decide (t ≤ e.getD ""))

/-- `TemporalRetriever.query` after the wrapped retrieval: the list
comprehension evaluates `doc[self.timestamp_field]` for every document
(even when no bound is set) and keeps the in-range documents; the first
exception aborts the call. -/
def query (results : List TDoc) (tsField : String) (s e : Option String) :
    Except PyErr (List TDoc) :=
  match results with
  | [] => .ok []
  | d :: ds =>
      match getItem d tsField with
      | .error err => .error err
      | .ok ts =>
          match _is_within_range ts s e with
          | .error err => .error err
          | .ok b =>
              match query ds tsField s e with
              | .error err => .error err
              | .ok rest => .ok (if b then d :: rest else rest)

end TemporalRetriever

/-! ### §4.2 Thread-safety wrapper — `src/memswarm/base.py` and the
metadata-capable GCS adapter `src/memswarm/gcs_memory.py` it wraps. -/

namespace GCSSharedMemoryMeta

/-- The adapter state: the bucket prefix and the blobs written through
the adapter (each an entry `{"value": ..., "metadata": ...}` stored
under `f"{self.prefix}{key}"`). -/
structure GStore where
  pfx : String
  blobs : List (String × InMemorySharedMemory.Entry)
deriving DecidableEq, Repr

/-- `gcs_memory.py` `write(key, value, metadata=None)`: default the
metadata fields (timestamp stamped) and upload the entry. -/
def write (st : GStore) (key : String) (value : PyV) (metadata : MetaArg)
    (now : String) : Except PyErr GStore :=
  match metadata.orEmpty with
  | .pydict d => .ok ⟨st.pfx, dinsert st.blobs (st.pfx ++ key)
      ⟨value, InMemorySharedMemory._get_default_metadata d now⟩⟩
  | _ => .error .attributeError

/-- `gcs_memory.py` `read(key)` for a specific key. -/
def read (st : GStore) (key : String) : Option InMemorySharedMemory.Entry :=
  alookup st.blobs (st.pfx ++ key)

/-- `gcs_memory.py` `delete(key)`: idempotent removal. -/
def delete (st : GStore) (key : String) : GStore :=
  ⟨st.pfx, st.blobs.filter (fun p => decide (p.1 ≠ st.pfx ++ key))⟩

/-- `gcs_memory.py` `clear()`: delete every blob under the prefix. -/
def clear (st : GStore) : GStore :=
  ⟨st.pfx, st.blobs.filter (fun p => decide (¬ st.pfx.data.isPrefixOf p.1.data))⟩

end GCSSharedMemoryMeta

/-- A lock acquisition/release event of the wrapper's mutex. -/
inductive LockEv where
  | acq : LockEv
  | rel : LockEv
deriving DecidableEq, Repr

/-- `with self.lock: body` — the lock is acquired, the body runs, and
the lock is released on both exit paths (normal return and exception);
the body's outcome, error included, is returned unchanged. -/
def pyWith {E α : Type _} (body : Except E α) : Except E α × List LockEv :=
  match body with
  | .ok a => (.ok a, [.acq, .rel])
  | .error e => (.error e, [.acq, .rel])

namespace ThreadSafeSharedMemory

/-- Wrapper `read(key)`: `with self.lock: return self.memory.read(key)`. -/
def tsRead (st : GCSSharedMemoryMeta.GStore) (key : String) :
    Option InMemorySharedMemory.Entry × List LockEv :=
  (GCSSharedMemoryMeta.read st key, [.acq, .rel])

/-- Wrapper `write(key, value)`: the wrapper's signature has no
`metadata` parameter, so the wrapped adapter's `write` always receives
`metadata=None`. -/
def tsWrite (st : GCSSharedMemoryMeta.GStore) (key : String) (value : PyV)
    (now : String) : Except PyErr GCSSharedMemoryMeta.GStore × List LockEv :=
  pyWith (GCSSharedMemoryMeta.write st key value .pynone now)

/-- Wrapper `delete(key)`. -/
def tsDelete (st : GCSSharedMemoryMeta.GStore) (key : String) :
    GCSSharedMemoryMeta.GStore × List LockEv :=
  (GCSSharedMemoryMeta.delete st key, [.acq, .rel])

/-- Wrapper `clear()`. -/
def tsClear (st : GCSSharedMemoryMeta.GStore) :
    GCSSharedMemoryMeta.GStore × List LockEv :=
  (GCSSharedMemoryMeta.clear st, [.acq, .rel])

end ThreadSafeSharedMemory

/-! ## Theorems -/

@[simp] theorem alookup_nil {β : Type _} (key : String) :
    alookup ([] : List (String × β)) key = none := rfl

@[simp] theorem alookup_cons {β : Type _} (k : String) (v : β) (rest : List (String × β))
    (key : String) :
    alookup ((k, v) :: rest) key = if k = key then some v else alookup rest key := rfl

theorem alookup_dinsert_self {β : Type _} (d : List (String × β)) (key : String) (val : β) :
    alookup (dinsert d key val) key = some val := by
  induction d with
  | nil => simp [dinsert]
  | cons hd tl ih =>
      obtain ⟨k, v⟩ := hd
      by_cases h : k = key
      · simp [dinsert, h]
      · simp [dinsert, h, ih]

theorem alookup_dinsert_ne {β : Type _} (d : List (String × β)) (key key' : String) (val : β)
    (hne : key ≠ key') :
    alookup (dinsert d key val) key' = alookup d key' := by
  induction d with
  | nil => simp [dinsert, hne]
  | cons hd tl ih =>
      obtain ⟨k, v⟩ := hd
      by_cases h : k = key
      · subst h
        simp [dinsert, hne]
      · simp [dinsert, h, ih]

section SortOn

variable {α κ : Type _} [LinearOrder κ] (key : α → κ)

theorem insertOn_perm (x : α) (l : List α) : List.Perm (insertOn key x l) (x :: l) := by
  induction l with
  | nil => rfl
  | cons y ys ih =>
      by_cases h : key y < key x
      · simpa [insertOn, h] using ((ih.cons y).trans (List.Perm.swap x y ys))
      · simp [insertOn, h]

theorem sortOn_perm (l : List α) : List.Perm (sortOn key l) l := by
  induction l with
  | nil => rfl
  | cons x xs ih => exact (insertOn_perm key x (sortOn key xs)).trans (ih.cons x)

theorem insertOn_pairwise (x : α) (l : List α)
    (hl : l.Pairwise (fun a b => key a ≤ key b)) :
    (insertOn key x l).Pairwise (fun a b => key a ≤ key b) := by
  induction l with
  | nil => simp [insertOn]
  | cons y ys ih =>
      rcases List.pairwise_cons.mp hl with ⟨hy, hys⟩
      by_cases h : key y < key x
      · rw [insertOn, if_pos h]
        refine List.pairwise_cons.mpr ⟨?_, ih hys⟩
        intro b hb
        rcases List.mem_cons.mp ((insertOn_perm key x ys).mem_iff.mp hb) with rfl | hb
        · exact le_of_lt h
        · exact hy b hb
      · rw [insertOn, if_neg h]
        refine List.pairwise_cons.mpr ⟨?_, hl⟩
        intro b hb
        rcases List.mem_cons.mp hb with hb | hb
        · exact hb ▸ le_of_not_lt h
        · exact le_trans (le_of_not_lt h) (hy b hb)

theorem sortOn_pairwise (l : List α) :
    (sortOn key l).Pairwise (fun a b => key a ≤ key b) := by
  induction l with
  | nil => simp [sortOn]
  | cons x xs ih => exact insertOn_pairwise key x (sortOn key xs) ih

/-- Stability of one insertion step: for a predicate that is constant-key
(all elements satisfying it share one key value), filtering the inserted
list either prepends `x` or changes nothing. -/
theorem insertOn_filter (p : α → Bool)
    (hp : ∀ a b, p a = true → p b = true → key a = key b) (x : α) (l : List α) :
    (insertOn key x l).filter p = if p x then x :: l.filter p else l.filter p := by
  induction l with
  | nil => cases hx : p x <;> simp [insertOn, List.filter_cons, hx]
  | cons y ys ih =>
      by_cases h : key y < key x
      · rw [insertOn, if_pos h]
        by_cases hx : p x = true
        · have hy : p y = false := by
            cases hyv : p y
            · rfl
            · exact absurd (hp y x hyv hx) (ne_of_lt h)
          simp [List.filter_cons, hy, hx, ih]
        · simp [List.filter_cons, hx, ih]
      · rw [insertOn, if_neg h]
        by_cases hx : p x = true <;> simp [List.filter_cons, hx]

/-- Stability of `sortOn`: within each equal-key class the original
order is preserved. -/
theorem sortOn_filter (p : α → Bool)
    (hp : ∀ a b, p a = true → p b = true → key a = key b) (l : List α) :
    (sortOn key l).filter p = l.filter p := by
  induction l with
  | nil => rfl
  | cons x xs ih =>
      rw [sortOn, insertOn_filter key p hp x (sortOn key xs), ih]
      by_cases hx : p x <;> simp [List.filter, hx]

/-- In a list sorted by `key`, an element with strictly smaller key
appears before one with a larger key: `[a, b]` is a sublist. -/
theorem pair_sublist_of_sorted {l : List α} (hl : l.Pairwise (fun a b => key a ≤ key b))
    {a b : α} (ha : a ∈ l) (hb : b ∈ l) (hab : key a < key b) :
    List.Sublist [a, b] l := by
  induction l with
  | nil => cases ha
  | cons c t ih =>
      rcases List.pairwise_cons.mp hl with ⟨hc, ht⟩
      rcases List.mem_cons.mp hb with rfl | hbt
      · rcases List.mem_cons.mp ha with rfl | hat
        · exact absurd hab (lt_irrefl _)
        · exact absurd hab (not_lt_of_le (hc a hat))
      · rcases List.mem_cons.mp ha with rfl | hat
        · exact (List.singleton_sublist.mpr hbt).cons₂ a
        · exact (ih ht hat hbt).cons c

theorem insertOnDesc_perm (x : α) (l : List α) :
    List.Perm (insertOnDesc key x l) (x :: l) := by
  induction l with
  | nil => rfl
  | cons y ys ih =>
      by_cases h : key x < key y
      · simpa [insertOnDesc, h] using ((ih.cons y).trans (List.Perm.swap x y ys))
      · simp [insertOnDesc, h]

theorem sortOnDesc_perm (l : List α) : List.Perm (sortOnDesc key l) l := by
  induction l with
  | nil => rfl
  | cons x xs ih => exact (insertOnDesc_perm key x (sortOnDesc key xs)).trans (ih.cons x)

theorem insertOnDesc_pairwise (x : α) (l : List α)
    (hl : l.Pairwise (fun a b => key b ≤ key a)) :
    (insertOnDesc key x l).Pairwise (fun a b => key b ≤ key a) := by
  induction l with
  | nil => simp [insertOnDesc]
  | cons y ys ih =>
      rcases List.pairwise_cons.mp hl with ⟨hy, hys⟩
      by_cases h : key x < key y
      · rw [insertOnDesc, if_pos h]
        refine List.pairwise_cons.mpr ⟨?_, ih hys⟩
        intro b hb
        rcases List.mem_cons.mp ((insertOnDesc_perm key x ys).mem_iff.mp hb) with rfl | hb
        · exact le_of_lt h
        · exact hy b hb
      · rw [insertOnDesc, if_neg h]
        refine List.pairwise_cons.mpr ⟨?_, hl⟩
        intro b hb
        rcases List.mem_cons.mp hb with rfl | hb
        · exact le_of_not_lt h
        · exact le_trans (hy b hb) (le_of_not_lt h)

theorem sortOnDesc_pairwise (l : List α) :
    (sortOnDesc key l).Pairwise (fun a b => key b ≤ key a) := by
  induction l with
  | nil => simp [sortOnDesc]
  | cons x xs ih => exact insertOnDesc_pairwise key x (sortOnDesc key xs) ih

theorem insertOnDesc_filter (p : α → Bool)
    (hp : ∀ a b, p a = true → p b = true → key a = key b) (x : α) (l : List α) :
    (insertOnDesc key x l).filter p =
      if p x then x :: l.filter p else l.filter p := by
  induction l with
  | nil => cases hx : p x <;> simp [insertOnDesc, List.filter_cons, hx]
  | cons y ys ih =>
      by_cases h : key x < key y
      · rw [insertOnDesc, if_pos h]
        by_cases hx : p x = true
        · have hy : p y = false := by
            cases hyv : p y
            · rfl
            · exact absurd (hp x y hx hyv) (ne_of_lt h)
          simp [List.filter_cons, hy, hx, ih]
        · simp [List.filter_cons, hx, ih]
      · rw [insertOnDesc, if_neg h]
        by_cases hx : p x = true <;> simp [List.filter_cons, hx]

theorem sortOnDesc_filter (p : α → Bool)
    (hp : ∀ a b, p a = true → p b = true → key a = key b) (l : List α) :
    (sortOnDesc key l).filter p = l.filter p := by
  induction l with
  | nil => rfl
  | cons x xs ih =>
      rw [sortOnDesc, insertOnDesc_filter key p hp x (sortOnDesc key xs), ih]
      by_cases hx : p x = true <;> simp [List.filter_cons, hx]

end SortOn

theorem list_lt_append {α : Type _} [LinearOrder α] (l : List α) {a b : List α}
    (h : a < b) : l ++ a < l ++ b := by
  induction l with
  | nil => simpa using h
  | cons c cs ih => exact List.Lex.cons ih

theorem string_append_lt (s : String) {t u : String} (h : t < u) :
    s ++ t < s ++ u := by
  rw [String.lt_iff_toList_lt] at h ⊢
  rw [show (s ++ t).toList = s.toList ++ t.toList from String.data_append s t,
    show (s ++ u).toList = s.toList ++ u.toList from String.data_append s u]
  exact list_lt_append s.toList h

theorem isPrefixOf_data_append (s t : String) :
    s.data.isPrefixOf (s ++ t).data = true := by
  rw [String.data_append s t]
  exact List.isPrefixOf_iff_prefix.mpr (List.prefix_append s.data t.data)

/-- C4: `read_context(C)` returns exactly the stored items whose key has
the prefix `f"{C}:"`, in ascending key order; consequently, for two
entries of context `C` at distinct timestamps `t1 < t2` the `t1` entry
appears before the `t2` entry (keys are `f"{C}:{timestamp}"`, and
appending to a common prefix preserves the strict string order). -/
theorem C4_read_context_ordered (mem : InMemorySharedMemory.Memory) (c : PyV) :
    (∀ p, p ∈ InMemorySharedMemory.read_context mem c ↔
       p ∈ mem ∧ (c.toStr ++ ":").data.isPrefixOf p.1.data = true) ∧
    (InMemorySharedMemory.read_context mem c).Pairwise (fun a b => a.1 ≤ b.1) ∧
    (∀ t1 t2 e1 e2, t1 < t2 →
       (c.toStr ++ ":" ++ t1, e1) ∈ mem → (c.toStr ++ ":" ++ t2, e2) ∈ mem →
       List.Sublist [(c.toStr ++ ":" ++ t1, e1), (c.toStr ++ ":" ++ t2, e2)]
         (InMemorySharedMemory.read_context mem c)) := by
  have hmem : ∀ p, p ∈ InMemorySharedMemory.read_context mem c ↔
      p ∈ mem ∧ (c.toStr ++ ":").data.isPrefixOf p.1.data = true := by
    intro p
    unfold InMemorySharedMemory.read_context
    rw [List.mem_filter, (sortOn_perm (fun p => p.1) mem).mem_iff]
  have hpw : (InMemorySharedMemory.read_context mem c).Pairwise
      (fun a b => a.1 ≤ b.1) := by
    unfold InMemorySharedMemory.read_context
    exact (sortOn_pairwise (fun p => p.1) mem).sublist (List.filter_sublist _)
  refine ⟨hmem, hpw, ?_⟩
  intro t1 t2 e1 e2 ht h1 h2
  exact pair_sublist_of_sorted (fun p => p.1) hpw
    ((hmem _).mpr ⟨h1, isPrefixOf_data_append (c.toStr ++ ":") t1⟩)
    ((hmem _).mpr ⟨h2, isPrefixOf_data_append (c.toStr ++ ":") t2⟩)
    (string_append_lt (c.toStr ++ ":") ht)

/-- Witness for C4: two entries of context `C` written at timestamps
`2020 < 2021, stored out of order; `read_context` lists the earlier one
first. -/
theorem C4_read_context_ordered_witness :
    List.Sublist
      [("C:2020", InMemorySharedMemory.Entry.mk (.str "v1") []),
       ("C:2021", InMemorySharedMemory.Entry.mk (.str "v2") [])]
      (InMemorySharedMemory.read_context
        [("C:2021", InMemorySharedMemory.Entry.mk (.str "v2") []),
         ("C:2020", InMemorySharedMemory.Entry.mk (.str "v1") [])] (.str "C")) :=
  (C4_read_context_ordered
      [("C:2021", InMemorySharedMemory.Entry.mk (.str "v2") []),
       ("C:2020", InMemorySharedMemory.Entry.mk (.str "v1") [])] (.str "C")).2.2
    "2020" "2021" (InMemorySharedMemory.Entry.mk (.str "v1") [])
    (InMemorySharedMemory.Entry.mk (.str "v2") [])
    (String.lt_iff_toList_lt.mpr (by decide)) (by decide) (by decide)

/-- C5 counterexample: the GCS adapter of `gcs.py` stores the bare value
string: writing `("k", "v")` leaves the bucket holding exactly the
two-character text `"v"` under the prefixed blob name.  No metadata dict
(and hence no `timestamp` field) is attached to the stored entry,
contrary to the claim that every adapter's write stores metadata with a
timestamp. -/
theorem C5_counterexample :
    GCSSharedMemoryPlain.write [] "shared_memory/" "k" "v" =
      [("shared_memory/k", "v")] ∧
    GCSSharedMemoryPlain.read
      (GCSSharedMemoryPlain.write [] "shared_memory/" "k" "v")
      "shared_memory/" "k" = some "v" := by
  constructor <;> rfl

/-- C5 (amended): the in-memory adapter's write always stores an entry
whose metadata holds a `timestamp` field — the caller-supplied value
when the caller's metadata has the key, the write-time default
otherwise; the plain GCS adapter (`gcs.py`), by contrast, stores only
the raw value string with no metadata at all. -/
theorem C5_write_timestamp (mem : InMemorySharedMemory.Memory) (v : PyV)
    (d : List (String × PyV)) (c : PyV) (now : String) :
    (InMemorySharedMemory.write mem v (.pydict d) c now =
      .ok (dinsert mem (c.toStr ++ ":" ++ now)
        ⟨v, InMemorySharedMemory._get_default_metadata d now⟩)) ∧
    (alookup (InMemorySharedMemory._get_default_metadata d now) "timestamp" =
      some ((alookup d "timestamp").getD (.str now))) ∧
    (∀ bucket pfx k value, alookup (GCSSharedMemoryPlain.write bucket pfx k value)
      (pfx ++ k) = some value) := by
  refine ⟨?_, ?_, ?_⟩
  · by_cases hd : d = []
    · subst hd
      rfl
    · simp [InMemorySharedMemory.write, MetaArg.orEmpty, MetaArg.truthy, hd]
  · simp [InMemorySharedMemory._get_default_metadata, pyGetD]
  · intro bucket pfx k value
    exact alookup_dinsert_self bucket (pfx ++ k) value

/-- C9 counterexample: the in-memory adapter without its optional
similarity dependencies is an adapter whose backend provides no
similarity capability, yet `similarity_search` silently returns the
empty list instead of failing with an error. -/
theorem C9_counterexample :
    InMemorySharedMemory.similarity_search none "q" 5 = .ok [] := rfl

/-- C9 (amended): the GCS adapter fails fast with `NotImplementedError`
on every `similarity_search` call; the in-memory adapter, when the
similarity libraries are unavailable, instead silently returns an empty
result list. -/
theorem C9_similarity_unsupported :
    (∀ q top_k, GCSSharedMemoryPlain.similarity_search q top_k =
      .error .notImplementedError) ∧
    (∀ q top_k, InMemorySharedMemory.similarity_search none q top_k = .ok []) :=
  ⟨fun _ _ => rfl, fun _ _ => rfl⟩

/-- C10 counterexample: calling the in-memory `write` through the base
contract as `write("k", "v")` binds the contract's value `"v"` to the
`metadata` parameter; `_get_default_metadata` then calls `.get` on the
string and raises `AttributeError` — nothing is stored at all, so in
particular `"k"` is not stored as the entry's value. -/
theorem C10_counterexample :
    InMemorySharedMemory.write [] (.str "k") (.pystr "v") .pnone "T" =
      .error .attributeError := rfl

/-- C10 (amended): the in-memory `write` never stores under a
caller-chosen key: every successful call stores under the synthesized
key `f"{context_id}:{timestamp}"` (`"None:{timestamp}"` when
`context_id` is omitted) with the `value` argument as the entry's value;
a caller invoking it through the base contract as `write(k, v)` with
dict (or falsy) `v` gets `k` stored as the entry's value and cannot
retrieve `v` under `k`; with a non-empty string `v` the call raises
`AttributeError` instead of storing anything. -/
theorem C10_write_key_synthesis (mem : InMemorySharedMemory.Memory) (v : PyV)
    (marg : MetaArg) (now : String) :
    (∀ c mem', InMemorySharedMemory.write mem v marg c now = .ok mem' →
       ∃ md, mem' = dinsert mem (c.toStr ++ ":" ++ now) ⟨v, md⟩) ∧
    (∀ mem', InMemorySharedMemory.write mem v marg .pnone now = .ok mem' →
       ∃ md, mem' = dinsert mem ("None:" ++ now) ⟨v, md⟩) ∧
    (∀ (k : String) (d : List (String × PyV)) mem',
       InMemorySharedMemory.write mem (.str k) (.pydict d) .pnone now = .ok mem' →
       alookup mem' ("None:" ++ now) =
         some ⟨.str k, InMemorySharedMemory._get_default_metadata d now⟩ ∧
       (k ≠ "None:" ++ now → alookup mem' k = alookup mem k)) ∧
    (∀ c s, s ≠ "" →
       InMemorySharedMemory.write mem v (.pystr s) c now = .error .attributeError) := by
  have hok : ∀ c mem', InMemorySharedMemory.write mem v marg c now = .ok mem' →
      ∃ md, mem' = dinsert mem (c.toStr ++ ":" ++ now) ⟨v, md⟩ := by
    intro c mem' h
    unfold InMemorySharedMemory.write at h
    cases hm : marg.orEmpty with
    | pydict d =>
        rw [hm] at h
        exact ⟨InMemorySharedMemory._get_default_metadata d now, (Except.ok.inj h).symm⟩
    | pynone => rw [hm] at h; cases h
    | pystr s => rw [hm] at h; cases h
  refine ⟨hok, fun mem' h => by simpa using hok .pnone mem' h, ?_, ?_⟩
  · intro k d mem' h
    have hwrite : InMemorySharedMemory.write mem (.str k) (.pydict d) .pnone now =
        .ok (dinsert mem ("None:" ++ now)
          ⟨.str k, InMemorySharedMemory._get_default_metadata d now⟩) := by
      by_cases hd : d = []
      · subst hd
        rfl
      · simp [InMemorySharedMemory.write, MetaArg.orEmpty, MetaArg.truthy, hd]
        rfl
    rw [hwrite] at h
    obtain rfl : mem' = dinsert mem ("None:" ++ now)
        ⟨.str k, InMemorySharedMemory._get_default_metadata d now⟩ :=
      (Except.ok.inj h).symm
    exact ⟨alookup_dinsert_self mem ("None:" ++ now) _,
      fun hk => alookup_dinsert_ne mem ("None:" ++ now) k _ (fun e => hk e.symm)⟩
  · intro c s hs
    simp [InMemorySharedMemory.write, MetaArg.orEmpty, MetaArg.truthy, hs]

/-- Witness for C10: the contract-style call `write("k", {})` with
omitted context stores the entry under `"None:T"` with `"k"` as the
value, and leaves key `"k"` unmapped. -/
theorem C10_write_key_synthesis_witness :
    alookup (dinsert ([] : InMemorySharedMemory.Memory) "None:T"
      (InMemorySharedMemory.Entry.mk (.str "k")
        (InMemorySharedMemory._get_default_metadata [] "T"))) "None:T" =
      some (InMemorySharedMemory.Entry.mk (.str "k")
        (InMemorySharedMemory._get_default_metadata [] "T")) ∧
    alookup (dinsert ([] : InMemorySharedMemory.Memory) "None:T"
      (InMemorySharedMemory.Entry.mk (.str "k")
        (InMemorySharedMemory._get_default_metadata [] "T"))) "k" =
      alookup ([] : InMemorySharedMemory.Memory) "k" := by
  have h := (C10_write_key_synthesis [] (.str "k") (.pydict []) "T").2.2.1 "k" []
    (dinsert ([] : InMemorySharedMemory.Memory) "None:T"
      (InMemorySharedMemory.Entry.mk (.str "k")
        (InMemorySharedMemory._get_default_metadata [] "T")))
    rfl
  exact ⟨h.1, h.2 (by decide)⟩

/-- C1: Hybrid memory read is read-through with write-back-on-miss: on a
cache hit, `read` returns the cache's entry and the same pair for every
durable backend (the backend is not consulted) with the cache unchanged;
on a cache miss with a durable hit `v`, `read` returns `v` and the
updated cache reads `v` at the key; when both miss it returns not-found
and leaves the cache unchanged. -/
theorem C1_hybrid_read_through (cache backend : HybridSharedMemory.Store) (key : String) :
    (∀ v, alookup cache key = some v →
      HybridSharedMemory.read cache backend key = (some v, cache)) ∧
    (alookup cache key = none → ∀ v, alookup backend key = some v →
      HybridSharedMemory.read cache backend key = (some v, dinsert cache key v) ∧
      alookup (dinsert cache key v) key = some v) ∧
    (alookup cache key = none → alookup backend key = none →
      HybridSharedMemory.read cache backend key = (none, cache)) := by
  refine ⟨?_, ?_, ?_⟩
  · intro v hv
    simp [HybridSharedMemory.read, hv]
  · intro hc v hb
    exact ⟨by simp [HybridSharedMemory.read, hc, hb],
      alookup_dinsert_self cache key v⟩
  · intro hc hb
    simp [HybridSharedMemory.read, hc, hb]

/-- Witness for C1: an empty cache, a backend holding `k -> v`; the
hybrid read returns `v` and populates the cache (spec property P3). -/
theorem C1_hybrid_read_through_witness :
    HybridSharedMemory.read [] [("k", "v")] "k" = (some "v", [("k", "v")]) ∧
    alookup [("k", "v")] "k" = some "v" :=
  (C1_hybrid_read_through [] [("k", "v")] "k").2.1 rfl "v" (by decide)

namespace HybridCentralizedIndex

theorem dedupLoop_sublist (rs : List QRes) (seen : List (Option PyV)) :
    List.Sublist (dedupLoop rs seen) rs := by
  induction rs generalizing seen with
  | nil => simp [dedupLoop]
  | cons r rs ih =>
      by_cases h : ident r ∈ seen
      · rw [dedupLoop, if_pos h]
        exact (ih seen).cons r
      · rw [dedupLoop, if_neg h]
        exact (ih (ident r :: seen)).cons₂ r

/-- Per identifier class, the dedup loop keeps exactly the first
occurrence of each identifier not yet seen. -/
theorem dedupLoop_filter (rs : List QRes) (seen : List (Option PyV)) (q : Option PyV) :
    (dedupLoop rs seen).filter (fun r => decide (ident r = q)) =
      if q ∈ seen then [] else (rs.filter (fun r => decide (ident r = q))).take 1 := by
  induction rs generalizing seen with
  | nil => simp [dedupLoop]
  | cons r rs ih =>
      by_cases h : ident r ∈ seen
      · rw [dedupLoop, if_pos h, ih seen]
        by_cases hq : q ∈ seen
        · simp [hq]
        · have hr : ¬ ident r = q := fun e => hq (e ▸ h)
          simp [hq, List.filter_cons, hr]
      · rw [dedupLoop, if_neg h]
        by_cases hrq : ident r = q
        · subst hrq
          rw [List.filter_cons_of_pos (by simp)]
          rw [ih (ident r :: seen)]
          simp [h, List.filter_cons]
        · rw [List.filter_cons_of_neg (by simp [hrq])]
          rw [ih (ident r :: seen)]
          have hqr : ¬ q = ident r := fun e => hrq e.symm
          have hmem : (q ∈ ident r :: seen) ↔ q ∈ seen := by
            simp [List.mem_cons, hqr]
          by_cases hq : q ∈ seen
          · simp [hmem, hq]
          · simp [hmem, hq, List.filter_cons, hrq]

/-- C2 (amended): the no-name `query` concatenates the per-backend
result lists in registry order, deduplicates by identifier — the `id`
field when it is truthy, falling back to `text` when `id` is absent or
falsy (Python `or`) — keeping the first-seen entry per identifier,
then stably sorts by descending score (missing score counts as `0`,
ties keep first-seen order) and truncates to `top_k`.  The last
conjunct is the spec's P4 example. -/
theorem C2_query_dedup_rank (registry : List (String × Backend))
    (fetch : String → List QRes) (top_k : Nat) :
    (query registry fetch none top_k =
      .ok ((sortOnDesc scoreKey (dedupLoop (fanout registry fetch) [])).take top_k)) ∧
    List.Sublist (dedupLoop (fanout registry fetch) []) (fanout registry fetch) ∧
    (∀ q, (dedupLoop (fanout registry fetch) []).filter
        (fun r => decide (ident r = q)) =
      ((fanout registry fetch).filter (fun r => decide (ident r = q))).take 1) ∧
    List.Perm (sortOnDesc scoreKey (dedupLoop (fanout registry fetch) []))
      (dedupLoop (fanout registry fetch) []) ∧
    (sortOnDesc scoreKey (dedupLoop (fanout registry fetch) [])).Pairwise
      (fun a b => scoreKey b ≤ scoreKey a) ∧
    (∀ s, (sortOnDesc scoreKey (dedupLoop (fanout registry fetch) [])).filter
        (fun r => decide (scoreKey r = s)) =
      (dedupLoop (fanout registry fetch) []).filter
        (fun r => decide (scoreKey r = s))) ∧
    (query [("faiss", Backend.faiss)]
      (fun _ => [⟨some (.int 1), none, some (1/2)⟩, ⟨some (.int 2), none, some (9/10)⟩,
        ⟨some (.int 1), none, some (3/10)⟩]) none 2 =
      .ok [⟨some (.int 2), none, some (9/10)⟩, ⟨some (.int 1), none, some (1/2)⟩]) := by
  refine ⟨rfl, dedupLoop_sublist _ [], ?_, sortOnDesc_perm scoreKey _,
    sortOnDesc_pairwise scoreKey _, ?_, ?_⟩
  · intro q
    simpa using dedupLoop_filter (fanout registry fetch) [] q
  · intro s
    exact sortOnDesc_filter scoreKey _
      (fun a b ha hb => (of_decide_eq_true ha).trans (of_decide_eq_true hb).symm) _
  · norm_num [query, _deduplicate_and_sort_results, fanout, dedupLoop, ident,
      PyV.truthy, scoreKey, sortOnDesc, insertOnDesc]

/-- C2 counterexample: two results share the falsy id `0` but have
distinct texts.  The claim's dedup (prefer `id` whenever present) would
keep only the first; the code's `result.get("id") or result.get("text")`
falls back to `text` for the falsy id and keeps both. -/
theorem C2_counterexample :
    query [("faiss", Backend.faiss)]
      (fun _ => [⟨some (.int 0), some (.str "a"), some 1⟩,
                 ⟨some (.int 0), some (.str "b"), some 0⟩]) none 2 =
      .ok [⟨some (.int 0), some (.str "a"), some 1⟩,
           ⟨some (.int 0), some (.str "b"), some 0⟩] ∧
    (sortOnDesc scoreKey (dedupClaimLoop
      [⟨some (.int 0), some (.str "a"), some 1⟩,
       ⟨some (.int 0), some (.str "b"), some 0⟩] [])).take 2 =
      [⟨some (.int 0), some (.str "a"), some 1⟩] ∧
    ([⟨some (.int 0), some (.str "a"), some 1⟩,
      ⟨some (.int 0), some (.str "b"), some 0⟩] : List QRes) ≠
      [⟨some (.int 0), some (.str "a"), some 1⟩] := by
  refine ⟨rfl, rfl, by decide⟩

/-- C3 counterexample: all libraries installed, faiss validly enabled
with a dimension, elasticsearch enabled but missing `host`: the whole
constructor raises `ValueError` naming `host` — no object is produced,
so faiss does not end up usable either, contradicting partial-success
initialization. -/
theorem C3_counterexample :
    init (fun _ => true)
      [("faiss", [("enabled", .bool true), ("dimension", .int 128)]),
       ("elasticsearch", [("enabled", .bool true)])] =
      .error (.missingField "host" "elasticsearch") := rfl

/-- C3 (amended): initialization is abort-on-first-failure, not
partial-success: a failed dependency check for an enabled backend makes
the constructor raise `ImportError` before any backend initializes; a
failed config validation (elasticsearch enabled without a truthy
`host`, after a successful faiss block) makes the constructor raise
`ValueError` naming the field, so no registry survives; and on a
successfully constructed index, a query naming an unregistered backend
raises `ValueError` for that name. -/
theorem C3_init_abort (env : String → Bool)
    (config : List (String × List (String × PyV))) :
    (enabled config "faiss" = true → env "faiss" = false →
      init env config = .error (.importError "faiss" "faiss")) ∧
    (∀ reg, _check_dependencies env config = .ok () →
      initStep config [] "faiss" ["dimension"] Backend.faiss = .ok reg →
      enabled config "elasticsearch" = true →
      fieldOk (cfgGet config "elasticsearch") "host" = false →
      init env config = .error (.missingField "host" "elasticsearch")) ∧
    (∀ (registry : List (String × Backend)) (fetch : String → List QRes) name top_k,
      alookup registry name = none →
      query registry fetch (some name) top_k = .error (.unknownBackend name)) := by
  refine ⟨?_, ?_, ?_⟩
  · intro hen hlib
    unfold init _check_dependencies
    simp [hen, hlib]
  · intro reg hdeps hfaiss hen hhost
    unfold init
    rw [hdeps]
    unfold _initialize_backends
    rw [hfaiss]
    unfold initStep
    simp [hen, _validate_backend_config, hhost]
  · intro registry fetch name top_k hne
    unfold query
    simp [hne]

/-- Witness for C3: querying an empty registry for `elasticsearch`
fails with the unknown-backend error. -/
theorem C3_init_abort_witness :
    query [] (fun _ => []) (some "elasticsearch") 5 =
      .error (.unknownBackend "elasticsearch") :=
  (C3_init_abort (fun _ => true) []).2.2 [] (fun _ => []) "elasticsearch" 5 rfl

end HybridCentralizedIndex

theorem dinsert_append_fresh {β : Type _} (m : List (String × β)) (t : String) (v : β)
    (h : alookup m t = none) : dinsert m t v = m ++ [(t, v)] := by
  induction m with
  | nil => rfl
  | cons hd tl ih =>
      obtain ⟨k, w⟩ := hd
      by_cases hk : k = t
      · rw [alookup_cons, if_pos hk] at h
        cases h
      · rw [alookup_cons, if_neg hk] at h
        simp [dinsert, hk, ih h]

namespace CombinedRerankingWorkflow

theorem alookup_mkMap (ts : List String) (f : String → ℚ) (t : String) :
    alookup (mkMap ts f) t = if t ∈ ts then some (f t) else none := by
  induction ts with
  | nil => simp [mkMap]
  | cons u us ih =>
      rw [show mkMap (u :: us) f = (u, f u) :: mkMap us f from rfl, alookup_cons]
      by_cases h : u = t
      · subst h
        simp [List.mem_cons]
      · have h2 : ¬ t = u := fun e => h e.symm
        rw [if_neg h, ih]
        simp [List.mem_cons, h2]

theorem mkMap_congr (ts : List String) (f g : String → ℚ)
    (h : ∀ t ∈ ts, f t = g t) : mkMap ts f = mkMap ts g := by
  unfold mkMap
  exact List.map_congr_left (fun t ht => by rw [h t ht])

theorem dinsert_mkMap (ts : List String) (f : String → ℚ) (t : String) (v : ℚ)
    (hnd : ts.Nodup) (ht : t ∈ ts) :
    dinsert (mkMap ts f) t v = mkMap ts (fun u => if u = t then v else f u) := by
  induction ts with
  | nil => cases ht
  | cons u us ih =>
      rcases List.nodup_cons.mp hnd with ⟨hu, hus⟩
      by_cases h : u = t
      · subst h
        have hrest : mkMap us (fun w => if w = u then v else f w) = mkMap us f :=
          mkMap_congr us _ f (fun w hw => by
            have : ¬ w = u := fun e => hu (e ▸ hw)
            simp [this])
        have lhs : dinsert (mkMap (u :: us) f) u v = (u, v) :: mkMap us f := by
          simp [mkMap, dinsert]
        have rhs : mkMap (u :: us) (fun w => if w = u then v else f w) =
            (u, v) :: mkMap us (fun w => if w = u then v else f w) := by
          simp [mkMap]
        rw [lhs, rhs, hrest]
      · have ht2 : t ∈ us := by
          rcases List.mem_cons.mp ht with e | e
          · exact absurd e.symm h
          · exact e
        have lhs : dinsert (mkMap (u :: us) f) t v =
            (u, f u) :: dinsert (mkMap us f) t v := by
          simp [mkMap, dinsert, h]
        have rhs : mkMap (u :: us) (fun w => if w = t then v else f w) =
            (u, f u) :: mkMap us (fun w => if w = t then v else f w) := by
          simp [mkMap, h]
        rw [lhs, rhs, ih hus ht2]

theorem initScores_go (documents : List String) :
    ∀ m, (∀ t ∈ documents, alookup m t = none) → documents.Nodup →
    documents.foldl (fun m t => dinsert m t 0) m = m ++ mkMap documents (fun _ => 0) := by
  induction documents with
  | nil => intro m _ _; simp [mkMap]
  | cons t ts ih =>
      intro m hfresh hnd
      rcases List.nodup_cons.mp hnd with ⟨htts, hts⟩
      rw [List.foldl_cons]
      have hm : alookup m t = none := hfresh t (List.mem_cons_self t ts)
      have hstep : ∀ u ∈ ts, alookup (dinsert m t 0) u = none := by
        intro u hu
        have hne : t ≠ u := fun e => htts (e ▸ hu)
        rw [alookup_dinsert_ne m t u 0 hne]
        exact hfresh u (List.mem_cons_of_mem t hu)
      rw [ih (dinsert m t 0) hstep hts, dinsert_append_fresh m t 0 hm]
      simp [mkMap]

theorem initScores_eq (documents : List String) (hnd : documents.Nodup) :
    initScores documents = mkMap documents (fun _ => 0) := by
  have h := initScores_go documents [] (fun t _ => rfl) hnd
  simpa [initScores] using h

theorem addScore_mkMap (ts : List String) (f : String → ℚ) (t : String) (Δ : ℚ)
    (hnd : ts.Nodup) (ht : t ∈ ts) :
    addScore (mkMap ts f) t Δ =
      .ok (mkMap ts (fun u => if u = t then f u + Δ else f u)) := by
  unfold addScore
  rw [alookup_mkMap, if_pos ht]
  show Except.ok (dinsert (mkMap ts f) t (f t + Δ)) = _
  rw [dinsert_mkMap ts f t (f t + Δ) hnd ht]
  exact congrArg Except.ok (mkMap_congr ts _ _ (fun u _ => by
    by_cases h : u = t <;> simp [h]))

theorem applyRanked_mkMap (ts : List String) (hnd : ts.Nodup) (w : ℚ) :
    ∀ (ranked : List SDoc) (f : String → ℚ), (∀ d ∈ ranked, d.text ∈ ts) →
    applyRanked (mkMap ts f) ranked w =
      .ok (mkMap ts (fun t => f t + w * sumScores ranked t)) := by
  intro ranked
  induction ranked with
  | nil =>
      intro f _
      unfold applyRanked
      exact congrArg Except.ok (mkMap_congr ts _ _ (fun t _ => by
        simp [sumScores])).symm
  | cons d ds ih =>
      intro f hsub
      unfold applyRanked
      rw [addScore_mkMap ts f d.text (d.score * w) hnd
        (hsub d (List.mem_cons_self d ds))]
      show applyRanked (mkMap ts fun u => if u = d.text then f u + d.score * w else f u)
        ds w = _
      rw [ih _ (fun d2 hd2 => hsub d2 (List.mem_cons_of_mem d hd2))]
      refine congrArg Except.ok (mkMap_congr ts _ _ (fun t _ => ?_))
      by_cases h : t = d.text
      · have hft : d.text = t := h.symm
        have hsum : sumScores (d :: ds) t = d.score + sumScores ds t := by
          simp [sumScores, List.filter_cons, hft]
        rw [hsum, if_pos h]
        ring
      · have hdt : ¬ d.text = t := fun e => h e.symm
        have hsum : sumScores (d :: ds) t = sumScores ds t := by
          simp [sumScores, List.filter_cons, hdt]
        rw [hsum, if_neg h]

theorem runLoop_mkMap (ts : List String) (hnd : ts.Nodup) :
    ∀ (pairs : List (List SDoc × ℚ)) (f : String → ℚ),
    (∀ rw_ ∈ pairs, ∀ d ∈ rw_.1, d.text ∈ ts) →
    runLoop (mkMap ts f) pairs =
      .ok (mkMap ts (fun t => f t + combinedScore pairs t)) := by
  intro pairs
  induction pairs with
  | nil =>
      intro f _
      unfold runLoop
      exact congrArg Except.ok (mkMap_congr ts _ _ (fun t _ => by
        simp [combinedScore])).symm
  | cons rw_ rest ih =>
      intro f hsub
      unfold runLoop
      rw [applyRanked_mkMap ts hnd rw_.2 rw_.1 f
        (hsub rw_ (List.mem_cons_self rw_ rest))]
      show runLoop (mkMap ts fun t => f t + rw_.2 * sumScores rw_.1 t) rest = _
      rw [ih _ (fun p hp => hsub p (List.mem_cons_of_mem rw_ hp))]
      refine congrArg Except.ok (mkMap_congr ts _ _ (fun t _ => ?_))
      simp [combinedScore, add_assoc]

/-- C6 (amended in presentation only): under the workflow's own
assumptions — pairwise-distinct document texts (the scores dict is
keyed by text) and rerankers returning (a subset of) the candidate
texts, each at most once — `run` returns one entry per input document
text carrying the combined score `Σ weight_i * score_i` (a document
absent from a reranker's output contributes `0` to that term), sorted
by descending combined score with a stable sort (equal scores keep the
input order); default weights are the uniform `1/n`, and the spec's P5
example evaluates as stated. -/
theorem C6_combined_rerank (documents : List String) (outs : List (List SDoc))
    (ws : List ℚ) (h1 : documents.Nodup)
    (h2 : ∀ rw_ ∈ outs.zip ws, ∀ d ∈ rw_.1, d.text ∈ documents) :
    (run documents outs ws = .ok (sortOnDesc (fun d => d.score)
      (documents.map (fun t => SDoc.mk t (combinedScore (outs.zip ws) t))))) ∧
    List.Perm (sortOnDesc (fun d : SDoc => d.score)
        (documents.map (fun t => SDoc.mk t (combinedScore (outs.zip ws) t))))
      (documents.map (fun t => SDoc.mk t (combinedScore (outs.zip ws) t))) ∧
    (sortOnDesc (fun d : SDoc => d.score)
      (documents.map (fun t => SDoc.mk t (combinedScore (outs.zip ws) t)))).Pairwise
      (fun a b => b.score ≤ a.score) ∧
    (∀ s : ℚ, (sortOnDesc (fun d : SDoc => d.score)
        (documents.map (fun t => SDoc.mk t (combinedScore (outs.zip ws) t)))).filter
        (fun d => decide (d.score = s)) =
      (documents.map (fun t => SDoc.mk t (combinedScore (outs.zip ws) t))).filter
        (fun d => decide (d.score = s))) ∧
    (∀ n : Nat, defaultWeights n = List.replicate n (1 / (n : ℚ))) ∧
    (run ["doc1", "doc2"]
      [[⟨"doc1", 1⟩, ⟨"doc2", 0⟩], [⟨"doc1", 0⟩, ⟨"doc2", 1⟩]]
      [1/2, 1/2] = .ok [⟨"doc1", 1/2⟩, ⟨"doc2", 1/2⟩]) := by
  refine ⟨?_, sortOnDesc_perm _ _, sortOnDesc_pairwise _ _, ?_, fun _ => rfl, ?_⟩
  · unfold run
    rw [initScores_eq documents h1, runLoop_mkMap documents h1 (outs.zip ws) _ h2]
    refine congrArg Except.ok ?_
    have hmap : ((mkMap documents fun t => 0 + combinedScore (outs.zip ws) t).map
        (fun p => SDoc.mk p.1 p.2)) =
        documents.map (fun t => SDoc.mk t (combinedScore (outs.zip ws) t)) := by
      unfold mkMap
      rw [List.map_map]
      exact List.map_congr_left (fun t _ => by simp)
    show sortOnDesc (fun d => d.score) ((mkMap documents
      fun t => 0 + combinedScore (outs.zip ws) t).map (fun p => SDoc.mk p.1 p.2)) = _
    rw [hmap]
  · intro s
    exact sortOnDesc_filter _ _
      (fun a b ha hb => (of_decide_eq_true ha).trans (of_decide_eq_true hb).symm) _
  · have hne : ("doc2" : String) = "doc1" ↔ False :=
      iff_false_intro (by decide)
    have hne2 : ("doc1" : String) = "doc2" ↔ False :=
      iff_false_intro (by decide)
    norm_num [run, runLoop, applyRanked, addScore, initScores, dinsert, alookup,
      sortOnDesc, insertOnDesc, hne, hne2]

/-- Witness for C6: the spec's P5 instance — two rerankers with weights
one half each, opposite unit scores — yields combined score one half
for both documents, kept in input order. -/
theorem C6_combined_rerank_witness :
    run ["doc1", "doc2"]
      [[⟨"doc1", 1⟩, ⟨"doc2", 0⟩], [⟨"doc1", 0⟩, ⟨"doc2", 1⟩]]
      [1/2, 1/2] = .ok [⟨"doc1", 1/2⟩, ⟨"doc2", 1/2⟩] :=
  (C6_combined_rerank ["doc1", "doc2"]
    [[⟨"doc1", 1⟩, ⟨"doc2", 0⟩], [⟨"doc1", 0⟩, ⟨"doc2", 1⟩]]
    [1/2, 1/2] (by decide) (by decide)).2.2.2.2.2

end CombinedRerankingWorkflow

namespace TemporalRetriever

/-- On a string timestamp, `_is_within_range` never raises and decides
exactly the inclusive range test against the truthy bounds. -/
theorem iwr_str (t : String) (s e : Option String) :
    _is_within_range (.str t) s e = .ok (inRangeB t s e) := by
  unfold _is_within_range inRangeB
  by_cases hs : optTruthy s
  · rw [if_pos hs]
    unfold cmpLtStr
    by_cases hlt : t < s.getD ""
    · have hnle : ¬ (s.getD "" ≤ t) := not_le.mpr hlt
      simp [hlt, hs, hnle]
    · have hle : s.getD "" ≤ t := le_of_not_lt hlt
      by_cases he : optTruthy e
      · rw [if_pos he]
        unfold cmpGtStr
        by_cases hgt : e.getD "" < t
        · have hnle2 : ¬ (t ≤ e.getD "") := not_le.mpr hgt
          simp [hlt, hgt, hs, he, hle, hnle2]
        · have hle2 : t ≤ e.getD "" := le_of_not_lt hgt
          simp [hlt, hgt, hs, he, hle, hle2]
      · simp [hlt, hs, he, hle]
  · rw [if_neg hs]
    by_cases he : optTruthy e
    · rw [if_pos he]
      unfold cmpGtStr
      by_cases hgt : e.getD "" < t
      · have hnle2 : ¬ (t ≤ e.getD "") := not_le.mpr hgt
        simp [hgt, hs, he, hnle2]
      · have hle2 : t ≤ e.getD "" := le_of_not_lt hgt
        simp [hgt, hs, he, hle2]
    · simp [hs, he]

/-- C7 (amended): the temporal filter is an inclusive range on string
timestamps — a timestamp equal to `start_time` or `end_time` passes the
strict `<`/`>` exclusion tests, and for all-string-timestamped results
`query` returns exactly the documents whose timestamp satisfies the
inclusive range against the truthy bounds; but a document lacking the
timestamp field makes `query` raise `KeyError` (the comprehension
evaluates `doc[self.timestamp_field]` for every document, bounds or
not), rather than being excluded. -/
theorem C7_temporal_inclusive :
    (∀ t s e, s ≠ "" → e ≠ "" →
      _is_within_range (.str t) (some s) (some e) =
        .ok (decide (s ≤ t ∧ t ≤ e))) ∧
    (∀ s e, s ≠ "" → e ≠ "" → s ≤ e →
      _is_within_range (.str s) (some s) (some e) = .ok true ∧
      _is_within_range (.str e) (some s) (some e) = .ok true) ∧
    (∀ docs field s e,
      (∀ d ∈ docs, ∃ t, alookup (TDoc.fields d) field = some (.str t)) →
      query docs field s e = .ok (docs.filter (fun d =>
        match alookup d.fields field with
        | some (.str t) => inRangeB t s e
        | _ => false))) ∧
    (∀ (d : TDoc) field s e,
      alookup d.fields field = none →
      query [d] field s e = .error PyErr.keyError) := by
  have hchar : ∀ t s e, (hs : s ≠ "") → (he : e ≠ "") →
      _is_within_range (.str t) (some s) (some e) =
        .ok (decide (s ≤ t ∧ t ≤ e)) := by
    intro t s e hs he
    rw [iwr_str]
    unfold inRangeB optTruthy
    simp [hs, he, Bool.decide_and]
  refine ⟨hchar, ?_, ?_, ?_⟩
  · intro s e hs he hse
    constructor
    · rw [hchar s s e hs he]
      simp [le_refl, hse]
    · rw [hchar e s e hs he]
      simp [le_refl, hse]
  · intro docs field s e hall
    induction docs with
    | nil => rfl
    | cons d ds ih =>
        obtain ⟨t, ht⟩ := hall d (List.mem_cons_self d ds)
        have hrest := ih (fun d2 hd2 => hall d2 (List.mem_cons_of_mem d hd2))
        rw [query, List.filter_cons]
        simp only [getItem, ht, iwr_str, hrest]
  · intro d field s e hmiss
    rw [query]
    simp only [getItem, hmiss]

/-- C7 counterexample: a retrieved document with no timestamp field and
a start bound supplied: `query` raises `KeyError` instead of excluding
the document. -/
theorem C7_counterexample :
    query [⟨[]⟩] "timestamp" (some "2024-01-01") none = .error PyErr.keyError := rfl

end TemporalRetriever

/-- C8 counterexample: the contract's `write(key, value, metadata)`
cannot be reproduced through the wrapper: the wrapper's `write` has no
`metadata` parameter (`def write(self, key, value)` calls
`self.memory.write(key, value)`), so the wrapped adapter always
defaults `metadata=None` — its stored metadata differs from a direct
write that supplies `{"agent": "a"}`. -/
theorem C8_counterexample :
    (ThreadSafeSharedMemory.tsWrite ⟨"p/", []⟩ "k" (.str "v") "T").1 ≠
      GCSSharedMemoryMeta.write ⟨"p/", []⟩ "k" (.str "v")
        (.pydict [("agent", PyV.str "a")]) "T" := by
  intro h
  exact absurd (Except.ok.inj h) (by decide)

/-- C8 (amended): the wrapper serializes and delegates: `read`,
`delete` and `clear` and the two-argument `write` produce exactly the
wrapped adapter's result and state change, each call wrapped in one
acquire/release pair; the wrapper's `write` forwards only `(key,
value)`, so the wrapped write always runs with `metadata=None`; and for
any wrapped call outcome, error included, `with self.lock` returns the
outcome unchanged with the lock released (acquire then release on both
exit paths). -/
theorem C8_wrapper_delegation :
    (∀ st key, ThreadSafeSharedMemory.tsRead st key =
      (GCSSharedMemoryMeta.read st key, [LockEv.acq, LockEv.rel])) ∧
    (∀ st key value now,
      (ThreadSafeSharedMemory.tsWrite st key value now).1 =
        GCSSharedMemoryMeta.write st key value .pynone now ∧
      (ThreadSafeSharedMemory.tsWrite st key value now).2 =
        [LockEv.acq, LockEv.rel]) ∧
    (∀ st key, ThreadSafeSharedMemory.tsDelete st key =
      (GCSSharedMemoryMeta.delete st key, [LockEv.acq, LockEv.rel])) ∧
    (∀ st, ThreadSafeSharedMemory.tsClear st =
      (GCSSharedMemoryMeta.clear st, [LockEv.acq, LockEv.rel])) ∧
    (∀ (body : Except PyErr GCSSharedMemoryMeta.GStore),
      (pyWith body).1 = body ∧ (pyWith body).2 = [LockEv.acq, LockEv.rel]) := by
  have hwith : ∀ (body : Except PyErr GCSSharedMemoryMeta.GStore),
      (pyWith body).1 = body ∧ (pyWith body).2 = [LockEv.acq, LockEv.rel] := by
    intro body
    cases body <;> exact ⟨rfl, rfl⟩
  refine ⟨fun _ _ => rfl, ?_, fun _ _ => rfl, fun _ => rfl, hwith⟩
  intro st key value now
  exact hwith (GCSSharedMemoryMeta.write st key value .pynone now)
